import Mathlib

/-!
Shallow embedding of the Tagit-Backend allocation subsystem.

Sources embedded here:
- `src/controllers/allocation.js` (createAllocation, updateAllocation,
  approveAllocation, rejectAllocation, normalizeUserIds,
  gatherTokensForUserIds, gatherEmailsForUserIds, sendEmailsToRecipients);
- `src/unnamed/part_000` (`jobs/availabilityScheduler.js`:
  parseDateFlexible, processExpiredAllocations);
- `src/models/Asset.js` and the Allocation schema (`src/unnamed/part_009`);
- `src/utils/fcm.js` (sendFcmToTokens).

Modelling conventions:
- Mongo ObjectIds are strings; collections are association lists keyed by id,
  mirroring `findById` / `findByIdAndUpdate` (a missing id makes the update a
  no-op, as `findByIdAndUpdate` returns null without throwing).
- JavaScript `Date` values are modelled by their time value in seconds since
  the Unix epoch (an `Int`); the host's local time zone is identified with UTC.
- The notification transports (Firebase, nodemailer) are external services;
  their success or failure is supplied by a `NotifyEnv` oracle, and dispatch
  calls return the summary records the source computes, with no effect on the
  stores.
-/

namespace Tagit

/-- ObjectId values, kept as their string representation. -/
abbrev Oid := String

/-- Association-list lookup by id, mirroring `Model.findById`. -/
def findById {α : Type} : List (Oid × α) → Oid → Option α
  | [], _ => none
  | p :: l, i => if p.1 = i then some p.2 else findById l i

/-- Association-list update by id, mirroring `Model.findByIdAndUpdate`:
the first document with the given id is transformed; a missing id is a no-op. -/
def updateById {α : Type} : List (Oid × α) → Oid → (α → α) → List (Oid × α)
  | [], _, _ => []
  | p :: l, i, f => if p.1 = i then (p.1, f p.2) :: l else p :: updateById l i f

/-- Overwriting save of a fetched document, mirroring `doc.save()`. -/
def saveById {α : Type} (l : List (Oid × α)) (i : Oid) (v : α) : List (Oid × α) :=
  updateById l i (fun _ => v)

/-- Hex-digit test used by the ObjectId validity check. -/
def isHexChar (c : Char) : Bool :=
  c.isDigit || ('a' ≤ c && c ≤ 'f') || ('A' ≤ c && c ≤ 'F')

/-- Embedding of `mongoose.Types.ObjectId.isValid` on strings: a 24-character
hex string, or any 12-character string (12-byte buffer-like input). -/
def isValidObjectId (s : String) : Bool :=
  (s.length == 24 && s.toList.all isHexChar) || s.length == 12

/-! ## JavaScript date model

`parseDateFlexible` (jobs/availabilityScheduler.js, lines 13-34) relies on the
host's `Date.parse` before its own `dd/mm/yyyy` decomposition.  We model a
date's time value as whole seconds since the Unix epoch and embed the two
`Date.parse` input families this program feeds it: ISO `yyyy-mm-dd` dates with
an optional `Thh:mm[:ss][Z]` time, and the engine's legacy numeric
month/day/year form with `/` or `-` separators (the form that makes
`Date.parse("05/12/2024")` succeed month-first while `"25/12/2024"` fails).
Other host-accepted spellings (month names, exponents, hex numbers) never
arise from this program's data and are modelled as parse failures. -/

/-- Days from the civil epoch 1970-01-01 for a proleptic Gregorian date
(standard civil-days algorithm, as used by JavaScript `MakeDay`). -/
def daysFromCivil (y m d : Int) : Int :=
  let y1 := if m ≤ 2 then y - 1 else y
  let era := (if 0 ≤ y1 then y1 else y1 - 399) / 400
  let yoe := y1 - era * 400
  let mp := if 2 < m then m - 3 else m + 9
  let doy := (153 * mp + 2) / 5 + d - 1
  let doe := yoe * 365 + yoe / 4 - yoe / 100 + doy
  era * 146097 + doe - 719468

/-- Leap-year test of the Gregorian calendar. -/
def isLeapYear (y : Nat) : Bool :=
  y % 4 == 0 && (y % 100 != 0 || y % 400 == 0)

/-- Number of days in a month, used to validate parsed calendar dates. -/
def daysInMonth (y m : Nat) : Nat :=
  if m == 2 then (if isLeapYear y then 29 else 28)
  else if m == 4 || m == 6 || m == 9 || m == 11 then 30
  else 31

/-- Embedding of the JavaScript `new Date(year, monthIndex, day)` constructor
(0-based month, arbitrary overflow normalized exactly as `MakeDay` does),
returning the time value in seconds at local midnight (local = UTC here). -/
def jsMakeDateYMD (y mIdx d : Int) : Int :=
  let ym := y + Int.ediv mIdx 12
  let mn := Int.emod mIdx 12
  86400 * (daysFromCivil ym (mn + 1) 1 + (d - 1))

/-- Character-list split on a separator predicate, keeping empty segments,
mirroring JavaScript `String.prototype.split` with a character class. -/
def splitChars (p : Char → Bool) : List Char → List (List Char)
  | [] => [[]]
  | c :: cs =>
    match splitChars p cs with
    | [] => if p c then [[], []] else [[c]]
    | seg :: rest => if p c then [] :: seg :: rest else (c :: seg) :: rest

/-- Test that a character list is a nonempty run of decimal digits. -/
def allDigits (cs : List Char) : Bool :=
  !cs.isEmpty && cs.all Char.isDigit

/-- Numeric value of a run of decimal digits. -/
def digitsToNat (cs : List Char) : Nat :=
  cs.foldl (fun n c => 10 * n + (c.toNat - 48)) 0

/-- Embedding of JavaScript `Number(...)` on the strings this program feeds it:
the empty string is 0, an optionally signed run of decimal digits is its value,
and anything else is NaN (`none`). -/
def jsNumber (cs : List Char) : Option Int :=
  if cs.isEmpty then some 0
  else if cs.head? = some '-' then
    (if allDigits cs.tail then some (-(digitsToNat cs.tail : Int)) else none)
  else if cs.head? = some '+' then
    (if allDigits cs.tail then some ((digitsToNat cs.tail : Int)) else none)
  else if allDigits cs then some ((digitsToNat cs : Int)) else none

/-- Parse the `yyyy-mm-dd` date part of an ISO string, returning civil days. -/
def parseIsoYmd (cs : List Char) : Option Int :=
  match splitChars (· == '-') cs with
  | [ys, ms, ds] =>
    if ys.length == 4 && ms.length == 2 && ds.length == 2 &&
        allDigits ys && allDigits ms && allDigits ds then
      let y := digitsToNat ys
      let m := digitsToNat ms
      let d := digitsToNat ds
      if 1 ≤ m && m ≤ 12 && 1 ≤ d && d ≤ daysInMonth y m then
        some (daysFromCivil (y : Int) (m : Int) (d : Int))
      else none
    else none
  | _ => none

/-- Parse the `hh:mm[:ss]` time part of an ISO string (optionally suffixed
with `Z`), returning seconds past midnight. -/
def parseIsoTime (cs0 : List Char) : Option Int :=
  let cs := if cs0.getLast? = some 'Z' then cs0.dropLast else cs0
  let comp (hs ms ss : List Char) : Option Int :=
    if hs.length == 2 && ms.length == 2 && ss.length == 2 &&
        allDigits hs && allDigits ms && allDigits ss then
      let h := digitsToNat hs
      let mi := digitsToNat ms
      let s := digitsToNat ss
      if h ≤ 23 && mi ≤ 59 && s ≤ 59 then
        some ((3600 * h + 60 * mi + s : Nat) : Int)
      else none
    else none
  match splitChars (· == ':') cs with
  | [hs, ms] => comp hs ms ['0', '0']
  | [hs, ms, ss] => comp hs ms ss
  | _ => none

/-- Model of the host's `Date.parse` restricted to the input families this
program produces (see the section comment), in seconds since the epoch. -/
def jsDateParse (cs : List Char) : Option Int :=
  match splitChars (· == 'T') cs with
  | [d] =>
    match parseIsoYmd d with
    | some days => some (86400 * days)
    | none =>
      -- legacy engine format: numeric month/day/year with / or - separators
      match splitChars (fun c => c == '/' || c == '-') d with
      | [ms, ds, ys] =>
        if allDigits ms && allDigits ds && allDigits ys && 3 ≤ ys.length then
          let m := digitsToNat ms
          let dd := digitsToNat ds
          let y := digitsToNat ys
          if 1 ≤ m && m ≤ 12 && 1 ≤ dd && dd ≤ daysInMonth y m then
            some (86400 * daysFromCivil (y : Int) (m : Int) (dd : Int))
          else none
        else none
      | _ => none
  | [d, t] =>
    match parseIsoYmd d, parseIsoTime t with
    | some days, some secs => some (86400 * days + secs)
    | _, _ => none
  | _ => none

/-- Embedding of `parseDateFlexible` (jobs/availabilityScheduler.js):
falsy input is invalid; then the host's generic `Date.parse` is tried; then a
three-component `dd/mm/yyyy` (or `dd-mm-yyyy`) decomposition where each
component must be a truthy `Number`; anything else is invalid (`none`). -/
def parseDateFlexible (dateValue : String) : Option Int :=
  let cs := dateValue.toList
  if cs.isEmpty then none
  else
    match jsDateParse cs with
    | some t => some t
    | none =>
      match splitChars (fun c => c == '/' || c == '-') cs with
      | [p1, p2, p3] =>
        match jsNumber p1, jsNumber p2, jsNumber p3 with
        | some day, some month, some year =>
          if year ≠ 0 && month ≠ 0 && day ≠ 0 then
            some (jsMakeDateYMD year (month - 1) day)
          else none
        | _, _, _ => none
      | _ => none

/-- Lift of `parseDateFlexible` to the optional `duration.endTime` field
(`alloc.duration?.endTime` may be absent, which is falsy). -/
def parseDateFlexibleOpt : Option String → Option Int
  | none => none
  | some s => parseDateFlexible s

/-! ## Data model (src/models/Asset.js, src/models/User.js, Allocation schema) -/

/-- User document; the core reads name, email and push tokens
(`u.fcmTokens` is guarded with `Array.isArray`, hence a plain list here). -/
structure User where
  name : Option String
  email : Option String
  fcmTokens : List String
deriving DecidableEq, Repr

/-- Asset document (src/models/Asset.js): the fields the allocation subsystem
reads or writes, including the `allocation` back-reference and the
`availablity` flag (spelled as in the schema). -/
structure Asset where
  name : String
  serialNo : String
  owner : Oid
  purchaser : Oid
  allocation : Option Oid
  availablity : Option Bool
deriving DecidableEq, Repr

/-- Allocation status enum from the schema:
`pending | approved | rejected | completed`. -/
inductive AllocStatus
  | pending
  | approved
  | rejected
  | completed
deriving DecidableEq, Repr

/-- Loosely-typed validity window of an allocation (date strings). -/
structure Duration where
  startTime : Option String
  endTime : Option String
deriving DecidableEq, Repr

/-- Allocation document (src/unnamed/part_009 schema).  `allocatedTo` is kept
optional because the controllers guard on its truthiness.  The controllers also
assign `rejectedBy`, a path absent from the schema, which mongoose strict mode
discards; it is therefore not a field here. -/
structure Allocation where
  allocatedBy : Oid
  allocatedTo : Option Oid
  asset : Option Oid
  purpose : Option String
  allocationType : String
  requestStatus : Option Bool
  status : AllocStatus
  approvedBy : Option Oid
  rejectionReason : Option String
  allocationStatusDate : Option Int
  duration : Duration
deriving DecidableEq, Repr

/-- The persistent store: the three collections the subsystem touches. -/
structure DB where
  allocations : List (Oid × Allocation)
  assets : List (Oid × Asset)
  users : List (Oid × User)
deriving DecidableEq, Repr

/-! ## Recipient resolution (controllers/allocation.js, lines 34-123)

`normalizeUserIds` accepts raw id strings, embedded documents, JSON-encoded
strings and legacy `ObjectId(...)` / `_id: ...` encoded strings.  The inputs
are modelled by the tagged union `UserRef` reflecting the runtime type tests
of the source (`!v`, `typeof v === 'object'`, `typeof v === 'string'`, other
primitives via `String(v)`). -/

/-- Heterogeneous user reference accepted by `normalizeUserIds`. -/
inductive UserRef
  | jsNull
  | obj (idField : Option String) (altIdField : Option String)
  | str (s : String)
  | num (n : Int)
deriving DecidableEq, Repr

/-- Whitespace trim on character lists (JavaScript `String.prototype.trim`). -/
def trimChars (cs : List Char) : List Char :=
  ((cs.dropWhile Char.isWhitespace).reverse.dropWhile Char.isWhitespace).reverse

/-- ObjectId validity on a character list. -/
def isValidObjectIdChars (cs : List Char) : Bool :=
  (cs.length == 24 && cs.all isHexChar) || cs.length == 12

/-- Consume an exact literal from the front of a character list. -/
def dropLit : List Char → List Char → Option (List Char)
  | [], cs => some cs
  | l :: ls, c :: cs => if c = l then dropLit ls cs else none
  | _ :: _, [] => none

/-- Take exactly `n` hex characters from the front of a character list. -/
def takeHex : Nat → List Char → Option (List Char × List Char)
  | 0, cs => some ([], cs)
  | _ + 1, [] => none
  | n + 1, c :: cs =>
    if isHexChar c then (takeHex n cs).map (fun p => (c :: p.1, p.2)) else none

/-- Quote characters of the regex class (single quote, double quote,
backquote, the latter written by code point). -/
def isQuoteMark (c : Char) : Bool :=
  c == '\'' || c == '"' || c.toNat == 96

/-- Hexadecimal letter test (A-F, a-f), the letters of the regex class. -/
def isHexLetter (c : Char) : Bool :=
  ('a' ≤ c && c ≤ 'f') || ('A' ≤ c && c ≤ 'F')

/-- First position (leftmost match) at which a pattern matcher succeeds,
mirroring an unanchored regex search. -/
def scanFirst {α : Type} (f : List Char → Option α) : List Char → Option α
  | [] => f []
  | c :: cs =>
    match f (c :: cs) with
    | some r => some r
    | none => scanFirst f cs

/-- Match, at the current position, the regex
`ObjectId\(['"`]?([a-fA-F0-9]\x7b24\x7d)['"`]?\)` and return its group. -/
def oidMatchAt (cs : List Char) : Option (List Char) :=
  match dropLit ("ObjectId(".toList) cs with
  | none => none
  | some rest =>
    let rest := match rest with
      | c :: t => if isQuoteMark c then t else c :: t
      | [] => []
    match takeHex 24 rest with
    | none => none
    | some (hex, rest) =>
      let rest := match rest with
        | c :: t => if isQuoteMark c then t else c :: t
        | [] => []
      match rest with
      | ')' :: _ => some hex
      | _ => none

/-- Embedding of the first fallback regex search of `normalizeUserIds`. -/
def oidPatternExtract (cs : List Char) : Option (List Char) :=
  scanFirst oidMatchAt cs

/-- Cross the `[^:]*[:=]` part of the second fallback regex: the first `:` if
one exists, otherwise (by greedy backtracking) the last `=`. -/
def afterSep (cs : List Char) : Option (List Char) :=
  if cs.contains ':' then some ((cs.dropWhile (· ≠ ':')).tail)
  else if cs.contains '=' then some ((cs.reverse.takeWhile (· ≠ '=')).reverse)
  else none

/-- Cross `[^'"\dA-Fa-f]*['"`]?` and take the 24-hex-character group. -/
def hexAfterJunk (cs : List Char) : Option (List Char) :=
  let rest := cs.dropWhile
    (fun c => !(c == '\'' || c == '"' || c.isDigit || isHexLetter c))
  let rest := match rest with
    | c :: t => if c == '\'' || c == '"' then t else c :: t
    | [] => []
  (takeHex 24 rest).map (fun p => p.1)

/-- Embedding of the second fallback regex search of `normalizeUserIds`
(`_id[^:]*[:=][^'"\dA-Fa-f]*['"`]?([a-fA-F0-9]\x7b24\x7d)['"`]?`). -/
def hexPatternExtract (cs : List Char) : Option (List Char) :=
  scanFirst
    (fun cs =>
      match dropLit ("_id".toList) cs with
      | none => none
      | some rest =>
        match afterSep rest with
        | none => none
        | some rest => hexAfterJunk rest)
    cs

/-- Embedding of the `JSON.parse` branch of `normalizeUserIds`, restricted to
the canonical flat serializations this system produces: a single-field object
carrying `_id` or `id` with a string value.  Other JSON shapes are treated as
parse failures. -/
def jsonIdExtract (cs : List Char) : Option (List Char) :=
  let tryKey (key : String) : Option (List Char) :=
    match dropLit key.toList cs with
    | some rest =>
      let v := rest.takeWhile (· ≠ '"')
      if v.isEmpty then none
      else
        match rest.dropWhile (· ≠ '"') with
        | ['"', c] => if c.toNat == 125 then some v else none
        | _ => none
    | none => none
  match tryKey "\x7b\"_id\":\"" with
  | some v => some v
  | none => tryKey "\x7b\"id\":\""

/-- String branch of `normalizeUserIds`: trim; a valid id passes through;
then the JSON branch, the `ObjectId(...)` regex and the `_id ...` regex are
tried in order; otherwise null. -/
def extractFromString (s0 : String) : Option String :=
  let cs := trimChars s0.toList
  if isValidObjectIdChars cs then some (String.mk cs)
  else
    let fromJson :=
      match jsonIdExtract cs with
      | some v => if isValidObjectIdChars v then some v else none
      | none => none
    match fromJson with
    | some v => some (String.mk v)
    | none =>
      match oidPatternExtract cs with
      | some v => some (String.mk v)
      | none => (hexPatternExtract cs).map String.mk

/-- Per-element extraction of `normalizeUserIds` (the `.map` callback):
null is dropped; objects yield a truthy `_id` or `id` field; strings go
through `extractFromString`; other primitives are stringified and kept only
when already valid ids. -/
def refToId : UserRef → Option String
  | .jsNull => none
  | .obj i a =>
    match i with
    | some s =>
      if s ≠ "" then some s
      else match a with
        | some t => if t ≠ "" then some t else none
        | none => none
    | none =>
      match a with
      | some t => if t ≠ "" then some t else none
      | none => none
  | .str s => extractFromString s
  | .num n =>
    let s := toString n
    if isValidObjectId s then some s else none

/-- First-occurrence deduplication, the order `Array.from(new Set(xs))`
produces. -/
def jsSetDedup {α : Type} [DecidableEq α] (l : List α) : List α :=
  l.foldl (fun acc x => if x ∈ acc then acc else acc ++ [x]) []

/-- Embedding of `normalizeUserIds` (controllers/allocation.js, lines 34-75). -/
def normalizeUserIds (input : List UserRef) : List Oid :=
  let ids := input.filterMap refToId
  let unique := jsSetDedup ids
  unique.filter (fun i => isValidObjectId i)

/-- Email recipient record `\x7b email, name \x7d` built by
`gatherEmailsForUserIds`. -/
structure EmailRecipient where
  email : String
  name : String
deriving DecidableEq, Repr

/-- Embedding of `gatherTokensForUserIds` (controllers/allocation.js, lines
81-92): normalize, query users by id membership (the store returns documents
in its own order, independent of the order of the `$in` array), flatten the
token arrays, drop falsy tokens, and deduplicate. -/
def gatherTokensForUserIds (db : DB) (userIds : List UserRef) : List String :=
  let ids := normalizeUserIds userIds
  if ids.isEmpty then []
  else
    let users := (db.users.filter (fun p => ids.contains p.1)).map Prod.snd
    let tokens := users.foldr (fun u acc => u.fcmTokens ++ acc) []
    jsSetDedup (tokens.filter (fun t => t ≠ ""))

/-- Embedding of `gatherEmailsForUserIds` (controllers/allocation.js, lines
98-123): normalize, query users, keep those with a truthy email, and
deduplicate by email keeping the first occurrence. -/
def gatherEmailsForUserIds (db : DB) (userIds : List UserRef) : List EmailRecipient :=
  let ids := normalizeUserIds userIds
  if ids.isEmpty then []
  else
    let users := (db.users.filter (fun p => ids.contains p.1)).map Prod.snd
    let list := users.filterMap (fun u =>
      match u.email with
      | some e => if e ≠ "" then some (EmailRecipient.mk e (u.name.getD "")) else none
      | none => none)
    list.foldl (fun acc r => if acc.any (fun x => x.email = r.email) then acc else acc ++ [r]) []

/-! ## Notification dispatch (utils/fcm.js, controllers/allocation.js 129-173)

The push and mail providers are external; a `NotifyEnv` oracle decides whether
the provider is initialized, whether a multicast send throws, and which
individual tokens or addresses fail.  Both dispatchers swallow provider
failures and return summary records, exactly as in the source. -/

/-- Outcome oracle for the external notification providers. -/
structure NotifyEnv where
  fcmInitialized : Bool
  fcmThrows : Bool
  fcmTokenFails : String → Bool
  emailFails : String → Bool

/-- Multicast result record returned by `sendFcmToTokens`. -/
structure FcmResult where
  successCount : Nat
  failureCount : Nat
deriving DecidableEq, Repr

/-- Embedding of `sendFcmToTokens` (utils/fcm.js): an uninitialized provider
degrades to a full-failure count; falsy tokens are filtered; an empty token
list returns the zero result with no network call; a throwing provider is
caught and reported as full failure. -/
def sendFcmToTokens (env : NotifyEnv) (tokens : List String) : FcmResult :=
  if !env.fcmInitialized then FcmResult.mk 0 tokens.length
  else
    let validTokens := tokens.filter (fun t => t ≠ "")
    if validTokens.isEmpty then FcmResult.mk 0 0
    else if env.fcmThrows then FcmResult.mk 0 validTokens.length
    else
      FcmResult.mk
        (validTokens.filter (fun t => !env.fcmTokenFails t)).length
        (validTokens.filter (fun t => env.fcmTokenFails t)).length

/-- Summary record returned by `sendEmailsToRecipients`. -/
structure EmailSummary where
  sent : Nat
  failed : Nat
  failures : List String
deriving DecidableEq, Repr

/-- Embedding of `sendEmailsToRecipients` (controllers/allocation.js):
per-recipient concurrent sends whose individual failures are collected, never
raised (`allSettled`-style aggregation). -/
def sendEmailsToRecipients (env : NotifyEnv) (recipients : List EmailRecipient) : EmailSummary :=
  if recipients.isEmpty then EmailSummary.mk 0 0 []
  else
    let failures := (recipients.filter (fun r => env.emailFails r.email)).map (fun r => r.email)
    EmailSummary.mk (recipients.length - failures.length) failures.length failures

/-- Zero push result (the send call is skipped on an empty token list). -/
def emptyFcm : FcmResult := FcmResult.mk 0 0

/-- Zero email summary (the send call is skipped with no recipients). -/
def emptyEmail : EmailSummary := EmailSummary.mk 0 0 []

/-- A populated user sub-document passed back into recipient gathering. -/
def oidRef (o : Oid) : UserRef := UserRef.obj (some o) none

/-- Report of the four dispatch calls of the approve/reject fan-out. -/
structure DispatchReport where
  toPush : FcmResult
  byPush : FcmResult
  toEmail : EmailSummary
  byEmail : EmailSummary
deriving DecidableEq, Repr

/-- Fan-out of `approveAllocation`/`rejectAllocation` (the two flows build the
same recipient groups and differ only in message text, which carries no state):
the `allocatedTo` group and the `allocatedBy` + asset owner/purchaser group
each receive a push dispatch and an email dispatch, every call guarded by a
non-empty recipient check. -/
def twoGroupNotify (env : NotifyEnv) (db : DB) (alloc : Allocation) : DispatchReport :=
  let toUserIds : List UserRef :=
    match alloc.allocatedTo with
    | some u => [oidRef u]
    | none => []
  let byBase : List UserRef := [oidRef alloc.allocatedBy]
  let byUserIds : List UserRef :=
    match alloc.asset with
    | some aid =>
      match findById db.assets aid with
      | some a => byBase ++ [oidRef a.owner, oidRef a.purchaser]
      | none => byBase
    | none => byBase
  let toTokens := gatherTokensForUserIds db toUserIds
  let toPush := if !toTokens.isEmpty then sendFcmToTokens env toTokens else emptyFcm
  let byTokens := gatherTokensForUserIds db byUserIds
  let byPush := if !byTokens.isEmpty then sendFcmToTokens env byTokens else emptyFcm
  let toRecipients := gatherEmailsForUserIds db toUserIds
  let toEmail := if !toRecipients.isEmpty then sendEmailsToRecipients env toRecipients else emptyEmail
  let byRecipients := gatherEmailsForUserIds db byUserIds
  let byEmail := if !byRecipients.isEmpty then sendEmailsToRecipients env byRecipients else emptyEmail
  DispatchReport.mk toPush byPush toEmail byEmail

/-- Single-group fan-out used by `createAllocation` and `updateAllocation`:
recipient, requester and the linked asset's owner/purchaser in one audience. -/
def combinedNotify (env : NotifyEnv) (db : DB) (alloc : Allocation) : FcmResult × EmailSummary :=
  let userIds : List UserRef :=
    (match alloc.allocatedTo with
     | some u => [oidRef u]
     | none => []) ++
    [oidRef alloc.allocatedBy] ++
    (match alloc.asset with
     | some aid =>
       match findById db.assets aid with
       | some a => [oidRef a.owner, oidRef a.purchaser]
       | none => []
     | none => [])
  let tokens := gatherTokensForUserIds db userIds
  let f := if !tokens.isEmpty then sendFcmToTokens env tokens else emptyFcm
  let recips := gatherEmailsForUserIds db userIds
  let e := if !recips.isEmpty then sendEmailsToRecipients env recips else emptyEmail
  (f, e)

/-! ## Controllers (controllers/allocation.js) -/

/-- Error response produced through `next(new ErrorResponse(msg, code))`. -/
structure ErrResp where
  message : String
  statusCode : Nat
deriving DecidableEq, Repr

/-- Boolean success test on a controller outcome. -/
def isOkResult {α : Type} : Except ErrResp α → Bool
  | .ok _ => true
  | .error _ => false

/-- Embedding of `createAllocation` (controllers/allocation.js, lines
206-300): insert the created document, then set the referenced asset's
`allocation` back-reference (failures there are logged, not raised), then
dispatch notifications.  `body` is the document as created by
`Allocation.create` (schema defaults applied). -/
def createAllocation (env : NotifyEnv) (db : DB) (newId : Oid) (body : Allocation) :
    DB × (FcmResult × EmailSummary) :=
  let db1 : DB := { db with allocations := db.allocations ++ [(newId, body)] }
  let db2 : DB :=
    match body.asset with
    | some aid =>
      { db1 with assets := updateById db1.assets aid (fun a => { a with allocation := some newId }) }
    | none => db1
  (db2, combinedNotify env db2 body)

/-- Generic update body: the fields of `req.body` that are present
(`findByIdAndUpdate` sets exactly the supplied paths). -/
structure UpdateBody where
  allocatedBy : Option Oid
  allocatedTo : Option Oid
  asset : Option Oid
  purpose : Option String
  allocationType : Option String
  requestStatus : Option Bool
  status : Option AllocStatus
  approvedBy : Option Oid
  rejectionReason : Option String
  allocationStatusDate : Option Int
  duration : Option Duration
deriving DecidableEq, Repr

/-- The all-absent update body. -/
def emptyUpdateBody : UpdateBody :=
  UpdateBody.mk none none none none none none none none none none none

/-- Application of a generic update body to an allocation document,
mirroring `findByIdAndUpdate(id, req.body)`. -/
def applyUpdateBody (b : UpdateBody) (a : Allocation) : Allocation :=
  { allocatedBy := b.allocatedBy.getD a.allocatedBy
    allocatedTo := match b.allocatedTo with | some v => some v | none => a.allocatedTo
    asset := match b.asset with | some v => some v | none => a.asset
    purpose := match b.purpose with | some v => some v | none => a.purpose
    allocationType := b.allocationType.getD a.allocationType
    requestStatus := match b.requestStatus with | some v => some v | none => a.requestStatus
    status := b.status.getD a.status
    approvedBy := match b.approvedBy with | some v => some v | none => a.approvedBy
    rejectionReason := match b.rejectionReason with | some v => some v | none => a.rejectionReason
    allocationStatusDate := match b.allocationStatusDate with | some v => some v | none => a.allocationStatusDate
    duration := b.duration.getD a.duration }

/-- Embedding of `updateAllocation` (controllers/allocation.js, lines
370-429): id validity check, 404 on a missing document, then
`findByIdAndUpdate` with the request body; the asset store is never touched;
notifications follow. -/
def updateAllocation (env : NotifyEnv) (db : DB) (id : Oid) (body : UpdateBody) :
    Except ErrResp (DB × (FcmResult × EmailSummary)) :=
  if !isValidObjectId id then .error (ErrResp.mk ("Invalid allocation id " ++ id) 400)
  else
    match findById db.allocations id with
    | none => .error (ErrResp.mk ("Allocation not found with id " ++ id) 404)
    | some a =>
      let a2 := applyUpdateBody body a
      let db1 : DB := { db with allocations := saveById db.allocations id a2 }
      .ok (db1, combinedNotify env db1 a2)

/-- Embedding of `approveAllocation` (controllers/allocation.js, lines
436-589): id validity check, 404 on a missing document, unconditional
transition to `approved` with timestamp and approver, then the asset update
(availability false, back-reference, owner reassignment for `Owner`-type
allocations with a recipient; a missing asset makes the update a no-op), then
the notification fan-out, then a success response. -/
def approveAllocation (env : NotifyEnv) (db : DB) (id : Oid) (now : Int) (reqUser : Option Oid) :
    Except ErrResp (DB × String × DispatchReport) :=
  if !isValidObjectId id then .error (ErrResp.mk ("Invalid allocation id " ++ id) 400)
  else
    match findById db.allocations id with
    | none => .error (ErrResp.mk ("Allocation not found with id " ++ id) 404)
    | some alloc =>
      let alloc2 : Allocation :=
        { alloc with
          requestStatus := some true
          status := .approved
          allocationStatusDate := some now
          approvedBy := match reqUser with | some u => some u | none => alloc.approvedBy }
      let db1 : DB := { db with allocations := saveById db.allocations id alloc2 }
      let db2 : DB :=
        match alloc2.asset with
        | some aid =>
          { db1 with assets := updateById db1.assets aid (fun a =>
              { a with
                availablity := some false
                allocation := some id
                owner :=
                  if alloc2.allocationType = "Owner" ∧ alloc2.allocatedTo.isSome
                  then alloc2.allocatedTo.getD a.owner
                  else a.owner }) }
        | none => db1
      .ok (db2, "Allocation approved successfully", twoGroupNotify env db2 alloc2)

/-- Embedding of `rejectAllocation` (controllers/allocation.js, lines
596-741): id validity check, 404 on a missing document, unconditional
transition to `rejected` with timestamp and optional truthy rejection reason,
then the asset availability reset, then the notification fan-out, then a
success response. -/
def rejectAllocation (env : NotifyEnv) (db : DB) (id : Oid) (now : Int)
    (reason : Option String) (_reqUser : Option Oid) :
    Except ErrResp (DB × String × DispatchReport) :=
  if !isValidObjectId id then .error (ErrResp.mk ("Invalid allocation id " ++ id) 400)
  else
    match findById db.allocations id with
    | none => .error (ErrResp.mk ("Allocation not found with id " ++ id) 404)
    | some alloc =>
      let alloc2 : Allocation :=
        { alloc with
          requestStatus := some false
          status := .rejected
          allocationStatusDate := some now
          rejectionReason :=
            match reason with
            | some r => if r ≠ "" then some r else alloc.rejectionReason
            | none => alloc.rejectionReason }
      let db1 : DB := { db with allocations := saveById db.allocations id alloc2 }
      let db2 : DB :=
        match alloc2.asset with
        | some aid =>
          { db1 with assets := updateById db1.assets aid (fun a => { a with availablity := some true }) }
        | none => db1
      .ok (db2, "Allocation rejected successfully", twoGroupNotify env db2 alloc2)

/-! ## Expiry sweep (jobs/availabilityScheduler.js, lines 39-90) -/

/-- One iteration of the sweep loop over a snapshot entry: parse the end time
(skip when invalid), and when it is at or before `now`, update the linked
asset's availability and save the completed allocation inside a try/catch.
`assetUpdateFails` tells whether the asset update throws for this allocation,
in which case the catch logs and the loop continues with nothing written. -/
def sweepStep (now : Int) (assetUpdateFails : Oid → Bool) (db : DB)
    (entry : Oid × Allocation) : DB :=
  match parseDateFlexibleOpt entry.2.duration.endTime with
  | none => db
  | some endTime =>
    if endTime ≤ now then
      match entry.2.asset with
      | some aid =>
        if assetUpdateFails entry.1 then db
        else
          let db1 : DB :=
            { db with assets := updateById db.assets aid (fun a => { a with availablity := some true }) }
          let done : Allocation := { entry.2 with status := .completed, allocationStatusDate := some now }
          { db1 with allocations := saveById db1.allocations entry.1 done }
      | none =>
        let done : Allocation := { entry.2 with status := .completed, allocationStatusDate := some now }
        { db with allocations := saveById db.allocations entry.1 done }
    else db

/-- Embedding of `processExpiredAllocations`: query the approved allocations
having an end time (a snapshot), then run the per-allocation loop over the
shared store. -/
def processExpiredAllocations (db : DB) (now : Int) (assetUpdateFails : Oid → Bool) : DB :=
  let batch := db.allocations.filter
    (fun p => decide (p.2.status = .approved) && p.2.duration.endTime.isSome)
  batch.foldl (sweepStep now assetUpdateFails) db

/-! ## Association-list lemmas -/

theorem findById_updateById_self {α : Type} (l : List (Oid × α)) (i : Oid) (f : α → α) :
    findById (updateById l i f) i = (findById l i).map f := by
  induction l with
  | nil => rfl
  | cons p t ih =>
    by_cases h : p.1 = i
    · simp [updateById, findById, h]
    · simp [updateById, findById, h, ih]

theorem findById_updateById_other {α : Type} (l : List (Oid × α)) (i j : Oid) (f : α → α)
    (h : j ≠ i) : findById (updateById l j f) i = findById l i := by
  induction l with
  | nil => rfl
  | cons p t ih =>
    by_cases hp : p.1 = j
    · simp [updateById, findById, hp, h, ih]
    · by_cases hq : p.1 = i
      · have hij : ¬i = j := fun hij => h hij.symm
        simp [updateById, findById, hp, hq, hij]
      · simp [updateById, findById, hp, hq, ih]

theorem findById_saveById_self {α : Type} (l : List (Oid × α)) (i : Oid) (v : α)
    (hs : (findById l i).isSome = true) : findById (saveById l i v) i = some v := by
  unfold saveById
  rw [findById_updateById_self]
  cases hf : findById l i with
  | none => rw [hf] at hs; cases hs
  | some a => simp

theorem findById_saveById_other {α : Type} (l : List (Oid × α)) (i j : Oid) (v : α)
    (h : j ≠ i) : findById (saveById l j v) i = findById l i :=
  findById_updateById_other l i j (fun _ => v) h

theorem findById_isSome_of_mem {α : Type} (l : List (Oid × α)) (i : Oid) (x : α)
    (hm : (i, x) ∈ l) : (findById l i).isSome = true := by
  induction l with
  | nil => cases hm
  | cons p t ih =>
    by_cases hp : p.1 = i
    · simp [findById, hp]
    · cases hm with
      | head => exact absurd rfl hp
      | tail _ hmt => simp [findById, hp, ih hmt]

theorem findById_eq_of_nodup {α : Type} (l : List (Oid × α)) (i : Oid) (x : α)
    (hn : (l.map Prod.fst).Nodup) (hm : (i, x) ∈ l) : findById l i = some x := by
  induction l with
  | nil => cases hm
  | cons p t ih =>
    rcases List.mem_cons.mp hm with he | hmt
    · subst he; simp [findById]
    · have hk : i ∈ t.map Prod.fst := List.mem_map_of_mem Prod.fst hmt
      have hne : p.1 ≠ i := by
        intro hcon
        exact (List.nodup_cons.mp hn).1 (hcon ▸ hk)
      simp [findById, hne, ih (List.nodup_cons.mp hn).2 hmt]

/-! ## Deduplication lemmas -/

theorem mem_jsSetDedup_aux {α : Type} [DecidableEq α] (l : List α) :
    ∀ (acc : List α) (x : α),
      (x ∈ l.foldl (fun acc x => if x ∈ acc then acc else acc ++ [x]) acc) ↔ (x ∈ acc ∨ x ∈ l) := by
  induction l with
  | nil => intro acc x; simp
  | cons y t ih =>
    intro acc x
    by_cases hy : y ∈ acc
    · simp only [List.foldl_cons, if_pos hy, ih acc x, List.mem_cons]
      constructor
      · rintro (h | h) <;> tauto
      · rintro (h | h | h)
        · tauto
        · exact Or.inl (h ▸ hy)
        · tauto
    · simp only [List.foldl_cons, if_neg hy, ih (acc ++ [y]) x, List.mem_append,
        List.mem_singleton, List.mem_cons]
      tauto

theorem mem_jsSetDedup {α : Type} [DecidableEq α] (l : List α) (x : α) :
    x ∈ jsSetDedup l ↔ x ∈ l := by
  unfold jsSetDedup
  rw [mem_jsSetDedup_aux]
  simp

/-! ## Recipient-resolution lemmas -/

theorem mem_normalizeUserIds (input : List UserRef) (x : Oid) :
    x ∈ normalizeUserIds input ↔
      ((∃ r ∈ input, refToId r = some x) ∧ isValidObjectId x = true) := by
  unfold normalizeUserIds
  simp only [List.mem_filter, mem_jsSetDedup, List.mem_filterMap]

theorem normalizeUserIds_mem_congr (refs refs' : List UserRef)
    (h : ∀ r, r ∈ refs ↔ r ∈ refs') (x : Oid) :
    x ∈ normalizeUserIds refs ↔ x ∈ normalizeUserIds refs' := by
  rw [mem_normalizeUserIds, mem_normalizeUserIds]
  constructor
  · rintro ⟨⟨r, hr, he⟩, hv⟩
    exact ⟨⟨r, (h r).mp hr, he⟩, hv⟩
  · rintro ⟨⟨r, hr, he⟩, hv⟩
    exact ⟨⟨r, (h r).mpr hr, he⟩, hv⟩

theorem isEmpty_congr_of_mem {α : Type} (l l' : List α)
    (hm : ∀ x, x ∈ l ↔ x ∈ l') : l.isEmpty = l'.isEmpty := by
  cases l with
  | nil =>
    cases l' with
    | nil => rfl
    | cons y t => exact absurd ((hm y).mpr (List.mem_cons_self y t)) (by simp)
  | cons y t =>
    cases l' with
    | nil => exact absurd ((hm y).mp (List.mem_cons_self y t)) (by simp)
    | cons z s => rfl

theorem oidList_contains_iff (l : List Oid) (x : Oid) :
    l.contains x = true ↔ x ∈ l := by
  induction l with
  | nil => simp
  | cons y t ih =>
    simp only [List.contains_cons, Bool.or_eq_true, beq_iff_eq, List.mem_cons, ih]

theorem usersFilter_congr (db : DB) (ids ids' : List Oid)
    (hm : ∀ x, x ∈ ids ↔ x ∈ ids') :
    db.users.filter (fun p => ids.contains p.1)
      = db.users.filter (fun p => ids'.contains p.1) := by
  apply List.filter_congr
  intro p _
  have : ids.contains p.1 = true ↔ ids'.contains p.1 = true := by
    rw [oidList_contains_iff, oidList_contains_iff]
    exact hm p.1
  cases hc : ids.contains p.1 with
  | true => exact (this.mp hc).symm
  | false =>
    cases hc' : ids'.contains p.1 with
    | true => exact absurd (this.mpr hc') (by rw [hc]; simp)
    | false => rfl

theorem gatherTokensForUserIds_congr (db : DB) (refs refs' : List UserRef)
    (hmem : ∀ x, x ∈ normalizeUserIds refs ↔ x ∈ normalizeUserIds refs') :
    gatherTokensForUserIds db refs = gatherTokensForUserIds db refs' := by
  unfold gatherTokensForUserIds
  have hemp := isEmpty_congr_of_mem _ _ hmem
  have hfil := usersFilter_congr db _ _ hmem
  simp only [hemp, hfil]

theorem gatherEmailsForUserIds_congr (db : DB) (refs refs' : List UserRef)
    (hmem : ∀ x, x ∈ normalizeUserIds refs ↔ x ∈ normalizeUserIds refs') :
    gatherEmailsForUserIds db refs = gatherEmailsForUserIds db refs' := by
  unfold gatherEmailsForUserIds
  have hemp := isEmpty_congr_of_mem _ _ hmem
  have hfil := usersFilter_congr db _ _ hmem
  simp only [hemp, hfil]

/-! ## Sweep lemmas -/

theorem if_bool_false {α : Type} (a b : α) : (if false = true then a else b) = b := rfl

theorem sweepStep_alloc_other (now : Int) (fails : Oid → Bool) (db : DB)
    (e : Oid × Allocation) (i : Oid) (h : e.1 ≠ i) :
    findById (sweepStep now fails db e).allocations i = findById db.allocations i := by
  unfold sweepStep
  cases hp : parseDateFlexibleOpt e.2.duration.endTime with
  | none => rfl
  | some t =>
    by_cases hle : t ≤ now
    · simp only [if_pos hle]
      cases ha : e.2.asset with
      | some aid =>
        by_cases hf : fails e.1 = true
        · simp [hf]
        · simp only [hf, Bool.false_ne_true, if_neg, if_false]
          exact findById_saveById_other _ _ _ _ h
      | none => exact findById_saveById_other _ _ _ _ h
    · simp only [if_neg hle]

theorem foldl_sweep_alloc_other (now : Int) (fails : Oid → Bool)
    (L : List (Oid × Allocation)) (db : DB) (i : Oid)
    (h : ∀ e ∈ L, e.1 ≠ i) :
    findById (L.foldl (sweepStep now fails) db).allocations i
      = findById db.allocations i := by
  induction L generalizing db with
  | nil => rfl
  | cons e t ih =>
    rw [List.foldl_cons, ih _ (fun x hx => h x (List.mem_cons_of_mem e hx))]
    exact sweepStep_alloc_other now fails db e i (h e (List.mem_cons_self e t))

theorem sweepStep_asset_owner_allocation (now : Int) (fails : Oid → Bool) (db : DB)
    (e : Oid × Allocation) (aid : Oid) (a : Asset)
    (ha : findById db.assets aid = some a) :
    ∃ a2, findById (sweepStep now fails db e).assets aid = some a2 ∧
      a2.owner = a.owner ∧ a2.allocation = a.allocation := by
  unfold sweepStep
  cases hp : parseDateFlexibleOpt e.2.duration.endTime with
  | none => exact ⟨a, ha, rfl, rfl⟩
  | some t =>
    by_cases hle : t ≤ now
    · simp only [if_pos hle]
      cases hs : e.2.asset with
      | some aid2 =>
        by_cases hf : fails e.1 = true
        · simp only [hf, if_pos]
          exact ⟨a, ha, rfl, rfl⟩
        · rw [Bool.not_eq_true] at hf
          simp only [hf, if_bool_false]
          by_cases heq : aid2 = aid
          · subst heq
            refine ⟨{ a with availablity := some true }, ?_, rfl, rfl⟩
            rw [findById_updateById_self, ha]
            rfl
          · refine ⟨a, ?_, rfl, rfl⟩
            rw [findById_updateById_other _ _ _ _ heq, ha]
      | none => exact ⟨a, ha, rfl, rfl⟩
    · simp only [if_neg hle]
      exact ⟨a, ha, rfl, rfl⟩

theorem foldl_sweep_asset_owner_allocation (now : Int) (fails : Oid → Bool)
    (L : List (Oid × Allocation)) (db : DB) (aid : Oid) (a : Asset)
    (ha : findById db.assets aid = some a) :
    ∃ a2, findById (L.foldl (sweepStep now fails) db).assets aid = some a2 ∧
      a2.owner = a.owner ∧ a2.allocation = a.allocation := by
  induction L generalizing db a with
  | nil => exact ⟨a, ha, rfl, rfl⟩
  | cons e t ih =>
    rw [List.foldl_cons]
    obtain ⟨a1, ha1, ho1, hl1⟩ := sweepStep_asset_owner_allocation now fails db e aid a ha
    obtain ⟨a2, ha2, ho2, hl2⟩ := ih _ a1 ha1
    exact ⟨a2, ha2, ho2.trans ho1, hl2.trans hl1⟩

/-- Invariant: the asset is present with availability `true`. -/
def assetFreed (db : DB) (aid : Oid) : Prop :=
  ∃ a, findById db.assets aid = some a ∧ a.availablity = some true

theorem sweepStep_preserves_freed (now : Int) (fails : Oid → Bool) (db : DB)
    (e : Oid × Allocation) (aid : Oid) (h : assetFreed db aid) :
    assetFreed (sweepStep now fails db e) aid := by
  obtain ⟨a, ha, hav⟩ := h
  unfold sweepStep
  cases hp : parseDateFlexibleOpt e.2.duration.endTime with
  | none => exact ⟨a, ha, hav⟩
  | some t =>
    by_cases hle : t ≤ now
    · simp only [if_pos hle]
      cases hs : e.2.asset with
      | some aid2 =>
        by_cases hf : fails e.1 = true
        · simp only [hf, if_pos]
          exact ⟨a, ha, hav⟩
        · rw [Bool.not_eq_true] at hf
          simp only [hf, if_bool_false]
          by_cases heq : aid2 = aid
          · subst heq
            refine ⟨{ a with availablity := some true }, ?_, rfl⟩
            rw [findById_updateById_self, ha]
            rfl
          · refine ⟨a, ?_, hav⟩
            rw [findById_updateById_other _ _ _ _ heq, ha]
      | none => exact ⟨a, ha, hav⟩
    · simp only [if_neg hle]
      exact ⟨a, ha, hav⟩

theorem foldl_sweep_preserves_freed (now : Int) (fails : Oid → Bool)
    (L : List (Oid × Allocation)) (db : DB) (aid : Oid) (h : assetFreed db aid) :
    assetFreed (L.foldl (sweepStep now fails) db) aid := by
  induction L generalizing db with
  | nil => exact h
  | cons e t ih =>
    rw [List.foldl_cons]
    exact ih _ (sweepStep_preserves_freed now fails db e aid h)

theorem sweepStep_asset_isSome (now : Int) (fails : Oid → Bool) (db : DB)
    (e : Oid × Allocation) (aid : Oid)
    (h : (findById db.assets aid).isSome = true) :
    (findById (sweepStep now fails db e).assets aid).isSome = true := by
  cases ha : findById db.assets aid with
  | none => rw [ha] at h; cases h
  | some a =>
    obtain ⟨a2, ha2, _, _⟩ := sweepStep_asset_owner_allocation now fails db e aid a ha
    rw [ha2]
    rfl

theorem sweepStep_alloc_isSome (now : Int) (fails : Oid → Bool) (db : DB)
    (e : Oid × Allocation) (i : Oid)
    (h : (findById db.allocations i).isSome = true) :
    (findById (sweepStep now fails db e).allocations i).isSome = true := by
  by_cases he : e.1 = i
  · unfold sweepStep
    cases hp : parseDateFlexibleOpt e.2.duration.endTime with
    | none => exact h
    | some t =>
      by_cases hle : t ≤ now
      · simp only [if_pos hle]
        cases hs : e.2.asset with
        | some aid2 =>
          by_cases hf : fails e.1 = true
          · simp only [hf, if_pos]
            exact h
          · rw [Bool.not_eq_true] at hf
            simp only [hf, if_bool_false]
            rw [he, findById_saveById_self _ _ _ h]
            rfl
        | none =>
          rw [he, findById_saveById_self _ _ _ h]
          rfl
      · simp only [if_neg hle]
        exact h
  · rw [sweepStep_alloc_other now fails db e i he]
    exact h

theorem sweepStep_self_eligible (now : Int) (fails : Oid → Bool) (db : DB)
    (i : Oid) (alloc : Allocation) (t : Int)
    (ht : parseDateFlexibleOpt alloc.duration.endTime = some t)
    (hle : t ≤ now) (hf : fails i = false)
    (hsome : (findById db.allocations i).isSome = true) :
    findById (sweepStep now fails db (i, alloc)).allocations i
      = some { alloc with status := .completed, allocationStatusDate := some now } := by
  unfold sweepStep
  simp only [ht, if_pos hle]
  cases hs : alloc.asset with
  | some aid =>
    simp only [hf, if_bool_false]
    exact findById_saveById_self _ _ _ hsome
  | none => exact findById_saveById_self _ _ _ hsome

theorem sweepStep_self_frees_asset (now : Int) (fails : Oid → Bool) (db : DB)
    (i : Oid) (alloc : Allocation) (t : Int) (aid : Oid)
    (ht : parseDateFlexibleOpt alloc.duration.endTime = some t)
    (hle : t ≤ now) (hf : fails i = false)
    (hasset : alloc.asset = some aid)
    (hsa : (findById db.assets aid).isSome = true) :
    assetFreed (sweepStep now fails db (i, alloc)) aid := by
  unfold sweepStep
  simp only [ht, if_pos hle, hasset, hf, if_bool_false]
  cases ha : findById db.assets aid with
  | none => rw [ha] at hsa; cases hsa
  | some a =>
    refine ⟨{ a with availablity := some true }, ?_, rfl⟩
    show findById (updateById db.assets aid _) aid = _
    rw [findById_updateById_self, ha]
    rfl

theorem foldl_sweep_eligible (now : Int) (fails : Oid → Bool)
    (L : List (Oid × Allocation)) (db : DB) (i : Oid) (alloc : Allocation) (t : Int)
    (hn : (L.map Prod.fst).Nodup)
    (hm : (i, alloc) ∈ L)
    (ht : parseDateFlexibleOpt alloc.duration.endTime = some t)
    (hle : t ≤ now) (hf : fails i = false)
    (hsome : (findById db.allocations i).isSome = true) :
    findById (L.foldl (sweepStep now fails) db).allocations i
      = some { alloc with status := .completed, allocationStatusDate := some now }
    ∧ (∀ aid, alloc.asset = some aid → (findById db.assets aid).isSome = true →
        assetFreed (L.foldl (sweepStep now fails) db) aid) := by
  induction L generalizing db with
  | nil => cases hm
  | cons e tl ih =>
    rw [List.foldl_cons]
    rcases List.mem_cons.mp hm with he | hmt
    · have he2 : e = (i, alloc) := he.symm
      subst he2
      have hkeys : ∀ x ∈ tl, x.1 ≠ i := by
        intro x hx hxi
        have hmem : i ∈ tl.map Prod.fst := hxi ▸ List.mem_map_of_mem Prod.fst hx
        exact (List.nodup_cons.mp hn).1 hmem
      constructor
      · rw [foldl_sweep_alloc_other now fails tl _ i hkeys]
        exact sweepStep_self_eligible now fails db i alloc t ht hle hf hsome
      · intro aid haid hsa
        exact foldl_sweep_preserves_freed now fails tl _ aid
          (sweepStep_self_frees_asset now fails db i alloc t aid ht hle hf haid hsa)
    · have hne : e.1 ≠ i := by
        intro hcon
        have hmem : i ∈ tl.map Prod.fst := List.mem_map_of_mem Prod.fst hmt
        exact (List.nodup_cons.mp hn).1 (hcon ▸ hmem)
      have hsome2 : (findById (sweepStep now fails db e).allocations i).isSome = true := by
        rw [sweepStep_alloc_other now fails db e i hne]
        exact hsome
      obtain ⟨h1, h2⟩ := ih _ (List.nodup_cons.mp hn).2 hmt hsome2
      refine ⟨h1, ?_⟩
      intro aid haid hsa
      exact h2 aid haid (sweepStep_asset_isSome now fails db e aid hsa)

theorem findById_saveById_map {α : Type} (l : List (Oid × α)) (i : Oid) (v : α) :
    findById (saveById l i v) i = (findById l i).map (fun _ => v) :=
  findById_updateById_self l i (fun _ => v)

theorem sweepStep_alloc_cong (now : Int) (f f' : Oid → Bool) (dbL dbR : DB)
    (e : Oid × Allocation) (i : Oid) (hfi : f i = f' i)
    (h : findById dbL.allocations i = findById dbR.allocations i) :
    findById (sweepStep now f dbL e).allocations i
      = findById (sweepStep now f' dbR e).allocations i := by
  by_cases he : e.1 = i
  · subst he
    unfold sweepStep
    cases hp : parseDateFlexibleOpt e.2.duration.endTime with
    | none => exact h
    | some t =>
      by_cases hle : t ≤ now
      · simp only [if_pos hle]
        cases hs : e.2.asset with
        | some aid =>
          cases hf : f e.1 with
          | true =>
            have hf2 : f' e.1 = true := hfi ▸ hf
            simp only [hf, hf2, if_pos]
            exact h
          | false =>
            have hf2 : f' e.1 = false := hfi ▸ hf
            simp only [hf, hf2, if_bool_false]
            change findById (saveById dbL.allocations e.1 _) e.1
              = findById (saveById dbR.allocations e.1 _) e.1
            rw [findById_saveById_map, findById_saveById_map, h]
        | none =>
          change findById (saveById dbL.allocations e.1 _) e.1
            = findById (saveById dbR.allocations e.1 _) e.1
          rw [findById_saveById_map, findById_saveById_map, h]
      · simp only [if_neg hle]
        exact h
  · rw [sweepStep_alloc_other now f dbL e i he, sweepStep_alloc_other now f' dbR e i he]
    exact h

theorem foldl_sweep_alloc_cong (now : Int) (f f' : Oid → Bool)
    (L : List (Oid × Allocation)) (dbL dbR : DB) (i : Oid) (hfi : f i = f' i)
    (h : findById dbL.allocations i = findById dbR.allocations i) :
    findById (L.foldl (sweepStep now f) dbL).allocations i
      = findById (L.foldl (sweepStep now f') dbR).allocations i := by
  induction L generalizing dbL dbR with
  | nil => exact h
  | cons e tl ih =>
    rw [List.foldl_cons, List.foldl_cons]
    exact ih _ _ (sweepStep_alloc_cong now f f' dbL dbR e i hfi h)

/-! ## Concrete fixtures for witnesses and counterexamples -/

/-- Sample allocation id (a valid 24-character hex ObjectId). -/
def idA : Oid := "aaaaaaaaaaaaaaaaaaaaaaaa"

/-- Sample asset id. -/
def idS : Oid := "bbbbbbbbbbbbbbbbbbbbbbbb"

/-- Sample requester id. -/
def idU1 : Oid := "cccccccccccccccccccccccc"

/-- Sample recipient id. -/
def idU2 : Oid := "dddddddddddddddddddddddd"

/-- Sample fresh allocation id for creation. -/
def idN : Oid := "eeeeeeeeeeeeeeeeeeeeeeee"

/-- All-success notification environment. -/
def env0 : NotifyEnv := NotifyEnv.mk true false (fun _ => false) (fun _ => false)

/-- Sample requester user. -/
def user1 : User := User.mk (some "Alice") (some "alice@x.co") ["tokA", "tokShared"]

/-- Sample recipient user. -/
def user2 : User := User.mk (some "Bob") (some "bob@x.co") ["tokB", "tokShared"]

/-- Sample asset, owned and purchased by the requester, currently available. -/
def asset0 : Asset := Asset.mk "Laptop" "SN1" idU1 idU1 none (some true)

/-- Sample pending `Owner`-type allocation of `asset0` to the recipient. -/
def alloc0 : Allocation :=
  Allocation.mk idU1 (some idU2) (some idS) none "Owner" none AllocStatus.pending
    none none none (Duration.mk none (some "25/12/2024"))

/-- Store with the pending allocation, its asset and both users. -/
def db0 : DB := DB.mk [(idA, alloc0)] [(idS, asset0)] [(idU1, user1), (idU2, user2)]

/-- The sample allocation after an earlier approval (status no longer pending). -/
def allocApproved : Allocation :=
  { alloc0 with status := AllocStatus.approved, allocationStatusDate := some 5 }

/-- Store in which the allocation is already approved. -/
def dbNonPending : DB :=
  DB.mk [(idA, allocApproved)] [(idS, asset0)] [(idU1, user1), (idU2, user2)]

/-- Approved allocation with a past end time, as seen by the expiry sweep. -/
def allocSweep : Allocation := { alloc0 with status := AllocStatus.approved }

/-- The asset while allocated (unavailable). -/
def assetSweep : Asset := { asset0 with availablity := some false }

/-- Store the sweep runs over. -/
def dbSweep : DB := DB.mk [(idA, allocSweep)] [(idS, assetSweep)] []

/-- Store with no allocations, for creation. -/
def dbCreate : DB := DB.mk [] [(idS, asset0)] []

/-- Failure oracle: nothing fails. -/
def failNone : Oid → Bool := fun _ => false

/-- Failure oracle differing from `failNone` away from the sample allocation. -/
def failElsewhere : Oid → Bool := fun j => decide (j = idS)

/-- Recipient reference list. -/
def refsA : List UserRef := [UserRef.str idU1, UserRef.str idU2]

/-- The same references permuted and with a duplicate. -/
def refsB : List UserRef := [UserRef.str idU2, UserRef.str idU1, UserRef.str idU1]

/-! ## Claim theorems -/

/-- Claim C1 (code bug evaluation): the approve and reject controllers have no
pending-status guard.  On a store whose allocation is already `approved`, both
operations succeed (no invalid-state error): approve re-stamps the status date
and flips the asset's availability again, and reject moves the allocation to
`rejected` — the allocation and its asset are not left unchanged. -/
theorem approve_reject_lack_pending_guard :
    (findById dbNonPending.allocations idA).map (fun a => a.status)
        = some AllocStatus.approved ∧
    isOkResult (approveAllocation env0 dbNonPending idA 2000 none) = true ∧
    ((approveAllocation env0 dbNonPending idA 2000 none).toOption.map
        (fun o => (findById o.1.allocations idA).map (fun a => a.allocationStatusDate)))
      = some (some (some 2000)) ∧
    ((approveAllocation env0 dbNonPending idA 2000 none).toOption.map
        (fun o => (findById o.1.assets idS).map (fun a => a.availablity)))
      = some (some (some false)) ∧
    isOkResult (rejectAllocation env0 dbNonPending idA 2000 none none) = true ∧
    ((rejectAllocation env0 dbNonPending idA 2000 none none).toOption.map
        (fun o => (findById o.1.allocations idA).map (fun a => a.status)))
      = some (some AllocStatus.rejected) := by
  refine ⟨rfl, rfl, rfl, rfl, rfl, rfl⟩

/-- Claim C2: approving a pending allocation with a linked existing asset sets
the asset's availability to `false` and its allocation back-reference to the
allocation's id; for an `Owner`-type allocation with a recipient the asset's
owner becomes that recipient, and for any other type the owner is unchanged. -/
theorem approveAllocation_asset_effects (env : NotifyEnv) (db : DB) (id aid : Oid)
    (now : Int) (reqUser : Option Oid) (alloc : Allocation) (a : Asset)
    (hvalid : isValidObjectId id = true)
    (hfind : findById db.allocations id = some alloc)
    (hpending : alloc.status = AllocStatus.pending)
    (hasset : alloc.asset = some aid)
    (ha : findById db.assets aid = some a) :
    ∃ out : DB × String × DispatchReport,
      approveAllocation env db id now reqUser = Except.ok out ∧
      ∃ a2 : Asset, findById out.1.assets aid = some a2 ∧
        a2.availablity = some false ∧
        a2.allocation = some id ∧
        (∀ r, alloc.allocationType = "Owner" → alloc.allocatedTo = some r → a2.owner = r) ∧
        (alloc.allocationType ≠ "Owner" → a2.owner = a.owner) := by
  unfold approveAllocation
  rw [hvalid]
  simp only [Bool.not_true, if_bool_false, hfind]
  refine ⟨_, rfl, ?_⟩
  simp only [hasset]
  rw [findById_updateById_self, ha]
  refine ⟨_, rfl, rfl, rfl, ?_, ?_⟩
  · intro r hT hr
    simp [hT, hr]
  · intro hT
    simp [hT]

/-- Witness for C2 at the concrete pending `Owner` allocation fixture. -/
theorem approveAllocation_asset_effects_witness :
    isValidObjectId idA = true ∧
    (∃ out : DB × String × DispatchReport,
      approveAllocation env0 db0 idA 1000 (some idU1) = Except.ok out ∧
      ∃ a2 : Asset, findById out.1.assets idS = some a2 ∧
        a2.availablity = some false ∧
        a2.allocation = some idA ∧
        (∀ r, alloc0.allocationType = "Owner" → alloc0.allocatedTo = some r → a2.owner = r) ∧
        (alloc0.allocationType ≠ "Owner" → a2.owner = asset0.owner)) :=
  ⟨by decide,
   approveAllocation_asset_effects env0 db0 idA idS 1000 (some idU1) alloc0 asset0
     (by decide) rfl rfl rfl rfl⟩

/-- Claim C3: one run of the expiry sweep moves every approved allocation whose
parsed end time is at or before the sweep time to `completed`, stamps the
status date with the sweep time, and frees the linked asset; and the outcome
recorded for one allocation depends only on its own failure flag, so a failure
while processing one allocation never prevents the sweep from attempting any
other allocation of the batch. -/
theorem expirySweep_spec :
    (∀ (db : DB) (now : Int) (fails : Oid → Bool) (i : Oid) (alloc : Allocation) (t : Int),
      (db.allocations.map Prod.fst).Nodup →
      (i, alloc) ∈ db.allocations →
      alloc.status = AllocStatus.approved →
      parseDateFlexibleOpt alloc.duration.endTime = some t →
      t ≤ now →
      fails i = false →
      (findById (processExpiredAllocations db now fails).allocations i
          = some { alloc with status := AllocStatus.completed, allocationStatusDate := some now }
        ∧ (∀ aid, alloc.asset = some aid → (findById db.assets aid).isSome = true →
            assetFreed (processExpiredAllocations db now fails) aid)))
    ∧
    (∀ (db : DB) (now : Int) (fails fails' : Oid → Bool) (i : Oid),
      fails i = fails' i →
      findById (processExpiredAllocations db now fails).allocations i
        = findById (processExpiredAllocations db now fails').allocations i) := by
  constructor
  · intro db now fails i alloc t hn hm hst ht hle hf
    have hend : alloc.duration.endTime.isSome = true := by
      cases he : alloc.duration.endTime with
      | none => rw [he] at ht; exact absurd ht (by simp [parseDateFlexibleOpt])
      | some s => rfl
    have hmb : (i, alloc) ∈ db.allocations.filter
        (fun p => decide (p.2.status = AllocStatus.approved) && p.2.duration.endTime.isSome) := by
      rw [List.mem_filter]
      exact ⟨hm, by simp [hst, hend]⟩
    have hnb : ((db.allocations.filter
        (fun p => decide (p.2.status = AllocStatus.approved) && p.2.duration.endTime.isSome)).map
          Prod.fst).Nodup :=
      List.Nodup.sublist ((List.filter_sublist db.allocations).map Prod.fst) hn
    unfold processExpiredAllocations
    exact foldl_sweep_eligible now fails _ db i alloc t hnb hmb ht hle hf
      (findById_isSome_of_mem _ _ _ hm)
  · intro db now f f' i hfi
    unfold processExpiredAllocations
    exact foldl_sweep_alloc_cong now f f' _ db db i hfi rfl

/-- Witness for C3: the concrete approved allocation with end time 25/12/2024
is completed by a sweep at that date, its asset is freed, and its outcome is
the same under a failure oracle that fails elsewhere. -/
theorem expirySweep_spec_witness :
    (findById (processExpiredAllocations dbSweep 1735084800 failNone).allocations idA
        = some { allocSweep with status := AllocStatus.completed,
                                 allocationStatusDate := some 1735084800 }
      ∧ (∀ aid, allocSweep.asset = some aid →
          (findById dbSweep.assets aid).isSome = true →
          assetFreed (processExpiredAllocations dbSweep 1735084800 failNone) aid))
    ∧ findById (processExpiredAllocations dbSweep 1735084800 failNone).allocations idA
        = findById (processExpiredAllocations dbSweep 1735084800 failElsewhere).allocations idA :=
  ⟨expirySweep_spec.1 dbSweep 1735084800 failNone idA allocSweep 1735084800
      (by decide) (by decide) rfl (by decide) (by decide) rfl,
   expirySweep_spec.2 dbSweep 1735084800 failNone failElsewhere idA (by decide)⟩

/-- Claim C4 counterexample: a generic update whose body carries a status
value does change the allocation's status — the pending fixture allocation
becomes `approved` through PUT /allocation/:id alone. -/
theorem updateAllocation_status_counterexample :
    (findById db0.allocations idA).map (fun a => a.status) = some AllocStatus.pending ∧
    ((updateAllocation env0 db0 idA
        { emptyUpdateBody with status := some AllocStatus.approved }).toOption.map
      (fun o => (findById o.1.allocations idA).map (fun a => a.status)))
      = some (some AllocStatus.approved) := by
  refine ⟨rfl, rfl⟩

/-- Claim C4 (amended): the generic update never touches the asset store (in
particular no asset's owner changes), and it leaves the allocation's status
unchanged whenever the request body itself carries no status field. -/
theorem updateAllocation_frame (env : NotifyEnv) (db : DB) (id : Oid) (body : UpdateBody)
    (alloc : Allocation)
    (hvalid : isValidObjectId id = true)
    (hfind : findById db.allocations id = some alloc) :
    ∃ out : DB × (FcmResult × EmailSummary),
      updateAllocation env db id body = Except.ok out ∧
      out.1.assets = db.assets ∧
      (body.status = none →
        (findById out.1.allocations id).map (fun a => a.status) = some alloc.status) := by
  unfold updateAllocation
  rw [hvalid]
  simp only [Bool.not_true, if_bool_false, hfind]
  refine ⟨_, rfl, rfl, ?_⟩
  intro hst
  rw [findById_saveById_map, hfind]
  simp [applyUpdateBody, hst]

/-- Witness for the amended C4 at the concrete fixture with an empty body. -/
theorem updateAllocation_frame_witness :
    isValidObjectId idA = true ∧
    (∃ out : DB × (FcmResult × EmailSummary),
      updateAllocation env0 db0 idA emptyUpdateBody = Except.ok out ∧
      out.1.assets = db0.assets ∧
      (emptyUpdateBody.status = none →
        (findById out.1.allocations idA).map (fun a => a.status) = some alloc0.status)) :=
  ⟨by decide, updateAllocation_frame env0 db0 idA emptyUpdateBody alloc0 (by decide) rfl⟩

/-- Claim C5 counterexample: `"05/12/2024"` is a dd/mm/yyyy-shaped string
(5 December 2024), yet the parser's generic branch consumes it first and reads
the first component as the month, yielding 12 May 2024 — so it is not true
that for every such string the first component is the day. -/
theorem parseDateFlexible_month_first_counterexample :
    parseDateFlexible "05/12/2024" = some (86400 * daysFromCivil 2024 5 12) ∧
    86400 * daysFromCivil 2024 5 12 ≠ 86400 * daysFromCivil 2024 12 5 := by
  constructor
  · rfl
  · decide

/-- Claim C5 (amended): ISO strings are accepted (`"2024-12-25T00:00:00Z"` is
25 December 2024); a dd/mm/yyyy or dd-mm-yyyy string is decomposed
day-first only when the generic parse rejects it, as with `"25/12/2024"` and
`"25-12-2024"` (both 25 December 2024), while `"05/12/2024"` is taken by the
generic parse month-first (12 May 2024); an unparseable string such as
`"not-a-date"` yields an invalid result (`none`) without throwing. -/
theorem parseDateFlexible_policy :
    parseDateFlexible "2024-12-25T00:00:00Z" = some (86400 * daysFromCivil 2024 12 25) ∧
    parseDateFlexible "25/12/2024" = some (86400 * daysFromCivil 2024 12 25) ∧
    parseDateFlexible "25-12-2024" = some (86400 * daysFromCivil 2024 12 25) ∧
    parseDateFlexible "05/12/2024" = some (86400 * daysFromCivil 2024 5 12) ∧
    parseDateFlexible "not-a-date" = none ∧
    parseDateFlexible "" = none := by
  refine ⟨?_, ?_, ?_, ?_, rfl, rfl⟩ <;> decide

/-- Claim C6: the business outcome of an approval — the stores it writes and
the success response it returns — is identical under any two notification
environments: no push or email failure (an uninitialized or throwing provider,
failing tokens or addresses, or zero valid tokens) changes the result. -/
theorem approveAllocation_notify_independent (env env' : NotifyEnv) (db : DB) (id : Oid)
    (now : Int) (reqUser : Option Oid) :
    (approveAllocation env db id now reqUser).map (fun o => (o.1, o.2.1))
      = (approveAllocation env' db id now reqUser).map (fun o => (o.1, o.2.1)) := by
  unfold approveAllocation
  cases hv : isValidObjectId id with
  | false => rfl
  | true =>
    simp only [Bool.not_true, if_bool_false]
    cases hfind : findById db.allocations id with
    | none => rfl
    | some alloc => rfl

/-- Claim C7: rejecting a pending allocation with a linked existing asset sets
the asset's availability flag to `true`. -/
theorem rejectAllocation_frees_asset (env : NotifyEnv) (db : DB) (id aid : Oid)
    (now : Int) (reason : Option String) (reqUser : Option Oid)
    (alloc : Allocation) (a : Asset)
    (hvalid : isValidObjectId id = true)
    (hfind : findById db.allocations id = some alloc)
    (hpending : alloc.status = AllocStatus.pending)
    (hasset : alloc.asset = some aid)
    (ha : findById db.assets aid = some a) :
    ∃ out : DB × String × DispatchReport,
      rejectAllocation env db id now reason reqUser = Except.ok out ∧
      ∃ a2 : Asset, findById out.1.assets aid = some a2 ∧ a2.availablity = some true := by
  unfold rejectAllocation
  rw [hvalid]
  simp only [Bool.not_true, if_bool_false, hfind]
  refine ⟨_, rfl, ?_⟩
  simp only [hasset]
  rw [findById_updateById_self, ha]
  exact ⟨_, rfl, rfl⟩

/-- Witness for C7 at the concrete pending allocation fixture. -/
theorem rejectAllocation_frees_asset_witness :
    isValidObjectId idA = true ∧
    (∃ out : DB × String × DispatchReport,
      rejectAllocation env0 db0 idA 1500 (some "declined") none = Except.ok out ∧
      ∃ a2 : Asset, findById out.1.assets idS = some a2 ∧ a2.availablity = some true) :=
  ⟨by decide,
   rejectAllocation_frees_asset env0 db0 idA idS 1500 (some "declined") none alloc0 asset0
     (by decide) rfl rfl rfl rfl⟩

/-- Claim C8: recipient resolution is idempotent and order-independent — two
reference lists with the same members (any permutation or duplicate-extension)
resolve to the same deduplicated push-token list and the same deduplicated
email-recipient list, and a reference from which no identity can be extracted
is dropped without changing either result. -/
theorem recipientResolution_order_independent (db : DB) (refs refs' : List UserRef)
    (h : ∀ r, r ∈ refs ↔ r ∈ refs') :
    (gatherTokensForUserIds db refs = gatherTokensForUserIds db refs' ∧
      gatherEmailsForUserIds db refs = gatherEmailsForUserIds db refs') ∧
    (∀ bad : UserRef, refToId bad = none →
      gatherTokensForUserIds db (bad :: refs) = gatherTokensForUserIds db refs ∧
      gatherEmailsForUserIds db (bad :: refs) = gatherEmailsForUserIds db refs) := by
  have hmem := normalizeUserIds_mem_congr refs refs' h
  refine ⟨⟨gatherTokensForUserIds_congr db refs refs' hmem,
           gatherEmailsForUserIds_congr db refs refs' hmem⟩, ?_⟩
  intro bad hbad
  have hmem2 : ∀ x, x ∈ normalizeUserIds (bad :: refs) ↔ x ∈ normalizeUserIds refs := by
    intro x
    rw [mem_normalizeUserIds, mem_normalizeUserIds]
    constructor
    · rintro ⟨⟨r, hr, he⟩, hv⟩
      rcases List.mem_cons.mp hr with rfl | hr2
      · rw [hbad] at he; cases he
      · exact ⟨⟨r, hr2, he⟩, hv⟩
    · rintro ⟨⟨r, hr, he⟩, hv⟩
      exact ⟨⟨r, List.mem_cons_of_mem bad hr, he⟩, hv⟩
  exact ⟨gatherTokensForUserIds_congr db _ _ hmem2,
         gatherEmailsForUserIds_congr db _ _ hmem2⟩

/-- Witness for C8: a permuted, duplicated reference list resolves to the same
token and email sets on the concrete user store. -/
theorem recipientResolution_witness :
    (gatherTokensForUserIds db0 refsA = gatherTokensForUserIds db0 refsB ∧
      gatherEmailsForUserIds db0 refsA = gatherEmailsForUserIds db0 refsB) ∧
    (∀ bad : UserRef, refToId bad = none →
      gatherTokensForUserIds db0 (bad :: refsA) = gatherTokensForUserIds db0 refsA ∧
      gatherEmailsForUserIds db0 (bad :: refsA) = gatherEmailsForUserIds db0 refsA) :=
  recipientResolution_order_independent db0 refsA refsB (by
    intro r
    simp only [refsA, refsB, List.mem_cons, List.not_mem_nil, or_false]
    tauto)

/-- Claim C9: creating an allocation with a valid reference to an existing
asset sets the asset's allocation back-reference to the new allocation's id
and leaves the asset's availability flag unchanged. -/
theorem createAllocation_backref (env : NotifyEnv) (db : DB) (newId aid : Oid)
    (body : Allocation) (a : Asset)
    (hasset : body.asset = some aid)
    (ha : findById db.assets aid = some a) :
    ∃ a2 : Asset, findById (createAllocation env db newId body).1.assets aid = some a2 ∧
      a2.allocation = some newId ∧ a2.availablity = a.availablity := by
  unfold createAllocation
  simp only [hasset]
  rw [findById_updateById_self, ha]
  exact ⟨_, rfl, rfl, rfl⟩

/-- Witness for C9 at the concrete asset fixture. -/
theorem createAllocation_backref_witness :
    alloc0.asset = some idS ∧
    (∃ a2 : Asset, findById (createAllocation env0 dbCreate idN alloc0).1.assets idS = some a2 ∧
      a2.allocation = some idN ∧ a2.availablity = asset0.availablity) :=
  ⟨rfl, createAllocation_backref env0 dbCreate idN idS alloc0 asset0 rfl rfl⟩

/-- Claim C10: rejection rewrites the linked asset to differ only in its
availability flag (set to `true`) — the allocation back-reference and owner
are untouched, so the asset still references the rejected allocation; the
expiry sweep likewise never changes any asset's owner or allocation
back-reference. -/
theorem reject_sweep_frame :
    (∀ (env : NotifyEnv) (db : DB) (id aid : Oid) (now : Int) (reason : Option String)
        (reqUser : Option Oid) (alloc : Allocation) (a : Asset),
      isValidObjectId id = true →
      findById db.allocations id = some alloc →
      alloc.asset = some aid →
      findById db.assets aid = some a →
      ∃ out : DB × String × DispatchReport,
        rejectAllocation env db id now reason reqUser = Except.ok out ∧
        findById out.1.assets aid = some { a with availablity := some true })
    ∧
    (∀ (db : DB) (now : Int) (fails : Oid → Bool) (aid : Oid) (a : Asset),
      findById db.assets aid = some a →
      ∃ a2 : Asset, findById (processExpiredAllocations db now fails).assets aid = some a2 ∧
        a2.owner = a.owner ∧ a2.allocation = a.allocation) := by
  constructor
  · intro env db id aid now reason reqUser alloc a hvalid hfind hasset ha
    unfold rejectAllocation
    rw [hvalid]
    simp only [Bool.not_true, if_bool_false, hfind]
    refine ⟨_, rfl, ?_⟩
    simp only [hasset]
    rw [findById_updateById_self, ha]
    rfl
  · intro db now fails aid a ha
    unfold processExpiredAllocations
    exact foldl_sweep_asset_owner_allocation now fails _ db aid a ha

/-- Witness for C10 at the concrete fixtures: a rejection and a sweep run. -/
theorem reject_sweep_frame_witness :
    (∃ out : DB × String × DispatchReport,
      rejectAllocation env0 db0 idA 1500 none none = Except.ok out ∧
      findById out.1.assets idS = some { asset0 with availablity := some true }) ∧
    (∃ a2 : Asset,
      findById (processExpiredAllocations dbSweep 1735084800 failNone).assets idS = some a2 ∧
      a2.owner = assetSweep.owner ∧ a2.allocation = assetSweep.allocation) :=
  ⟨reject_sweep_frame.1 env0 db0 idA idS 1500 none none alloc0 asset0 (by decide) rfl rfl rfl,
   reject_sweep_frame.2 dbSweep 1735084800 failNone idS assetSweep rfl⟩

end Tagit
